import Mathlib

/-!
# go-websizer: verification of the spec against the source

Shallow embedding of the go-websizer batch image resizer (two versions of
`main.go`: the pipelined version under `src/main.go`, called V1 below, and the
per-file sequential version under `src/unnamed/part_000`, called V2).

Strings are modelled as `List Char`.  Go `int` is modelled as `Int` (64-bit
overflow is irrelevant here except inside `strconv.Atoi`, whose range check is
modelled explicitly).  File-system effects (`os.Open`, `os.Stat`, `os.Create`,
the decoder and the encoders) are modelled as explicit environment parameters.
-/

/-- Convert a Lean string literal to the `List Char` representation used
throughout the development. -/
def chars (s : String) : List Char :=
  s.data

/-- The Go struct `Size` from both versions: a target height (Go `int`) and an
output format string. -/
structure Size where
  Height : Int
  Format : List Char
deriving DecidableEq, Repr

/-- `const defaultFormat = "webp"` from both versions. -/
def defaultFormat : List Char :=
  chars "webp"

/-- The default `sizes` variable: `[]Size{{480, defaultFormat}, {720,
defaultFormat}, {1080, defaultFormat}}`. -/
def defaultSizes : List Size :=
  [⟨480, defaultFormat⟩, ⟨720, defaultFormat⟩, ⟨1080, defaultFormat⟩]

/-- Error value of Go `strconv.Atoi`: a `*strconv.NumError` carrying the
function name (always `Atoi` here), the offending numeral string, and whether
the failure was a range error (`ErrRange`) or a syntax error (`ErrSyntax`). -/
structure AtoiErr where
  num : List Char
  isRange : Bool
deriving DecidableEq, Repr

/-- Rendering of a `*strconv.NumError` by its `Error()` method:
`strconv.Atoi: parsing "<num>": invalid syntax` or `... : value out of range`. -/
def AtoiErr.render (e : AtoiErr) : List Char :=
  chars "strconv.Atoi: parsing \"" ++ e.num ++ chars "\": " ++
    (if e.isRange then chars "value out of range" else chars "invalid syntax")

/-- Numeric value of a digit list (most significant first), as accumulated by
`strconv`'s parsing loop. -/
def digitsVal (ds : List Char) : Nat :=
  ds.foldl (fun a c => a * 10 + (c.toNat - 48)) 0

/-- Go `strconv.Atoi` on a 64-bit platform: optional leading `+` or `-`, then
one or more decimal digits; the value must fit in a signed 64-bit integer.
On failure the error carries the whole input string. -/
def goAtoi (s : List Char) : Except AtoiErr Int :=
  let neg : Bool := s.head? = some '-'
  let ds : List Char := if s.head? = some '-' ∨ s.head? = some '+' then s.drop 1 else s
  if ds = [] ∨ ¬ ds.all Char.isDigit then
    .error ⟨s, false⟩
  else
    let v : Nat := digitsVal ds
    if neg then
      if v > 2 ^ 63 then .error ⟨s, true⟩ else .ok (-(v : Int))
    else
      if v ≥ 2 ^ 63 then .error ⟨s, true⟩ else .ok (v : Int)

/-- The part of a size token before its first `-` (the whole token when no `-`
is present): `str[:dash]` with `dash := strings.IndexRune(str, '-')`. -/
def preDash (s : List Char) : List Char :=
  s.takeWhile (fun c => c ≠ '-')

/-- The part of a size token after its first `-`: `str[dash+1:]`. -/
def postDash (s : List Char) : List Char :=
  (s.dropWhile (fun c => c ≠ '-')).drop 1

/-- Go `parseSize` (identical in both versions): find the first `-`; without
one, the whole token is parsed by `Atoi` and the format defaults to
`defaultFormat`; with one, the prefix before it is parsed by `Atoi` and the
suffix after it is the format.  `Atoi` errors are wrapped as
`fmt.Errorf("parse %s: %w", ...)` naming the string that was handed to `Atoi`. -/
def parseSize (str : List Char) : Except (List Char) Size :=
  if '-' ∈ str then
    match goAtoi (preDash str) with
    | .error e => .error (chars "parse " ++ preDash str ++ chars ": " ++ e.render)
    | .ok v => .ok ⟨v, postDash str⟩
  else
    match goAtoi str with
    | .error e => .error (chars "parse " ++ str ++ chars ": " ++ e.render)
    | .ok v => .ok ⟨v, defaultFormat⟩

/-- The `size` flag handler from `main` (identical in both versions): split the
argument on `,`, parse every token with `parseSize`, abort at the first
error. -/
def parseSizes (s : List Char) : Except (List Char) (List Size) :=
  (s.splitOn ',').mapM parseSize

instance {ε α : Type} [DecidableEq ε] [DecidableEq α] : DecidableEq (Except ε α) := fun a b =>
  match a, b with
  | .ok x, .ok y => if h : x = y then .isTrue (by rw [h]) else .isFalse (by simp [h])
  | .error x, .error y => if h : x = y then .isTrue (by rw [h]) else .isFalse (by simp [h])
  | .ok _, .error _ => .isFalse (by simp)
  | .error _, .ok _ => .isFalse (by simp)

/-! ## The `path/filepath` functions used by the output-path computation

Unix rules (`Separator = '/'`, no volume names).  `clean` is `path.Clean`'s
algorithm in segment form: empty and `.` segments vanish, a `..` segment
removes the preceding real segment, is dropped at the root, and is kept at the
head of a relative path. -/

/-- Resolve one `Clean` segment against the stack of segments kept so far
(most recent first).  On `..`: pop the previous real segment; at the top of a
rooted path drop it; at the top of a relative path keep it (the stack then
holds only `..` segments, so the `top ≠ ..` test reproduces `path.Clean`'s
`dotdot` marker). -/
def cleanStep (rooted : Bool) (stack : List (List Char)) (seg : List Char) :
    List (List Char) :=
  if seg = ['.', '.'] then
    match stack with
    | top :: rest => if top = ['.', '.'] then seg :: stack else rest
    | [] => if rooted then [] else [seg]
  else
    seg :: stack

/-- Join path segments with `/`. -/
def joinSegs : List (List Char) → List Char
  | [] => []
  | [s] => s
  | s :: rest => s ++ '/' :: joinSegs rest

/-- Go `path.Clean` (= `filepath.Clean` on unix). -/
def clean (p : List Char) : List Char :=
  let rooted : Bool := p.head? = some '/'
  let segs := (p.splitOn '/').filter (fun s => s ≠ [] ∧ s ≠ ['.'])
  let body := joinSegs (segs.foldl (cleanStep rooted) []).reverse
  if rooted then '/' :: body
  else if body = [] then ['.']
  else body

/-- Go `filepath.Base` on unix: `.` for the empty path, otherwise the last
element after stripping trailing slashes, or `/` when only slashes remain. -/
def goBase (p : List Char) : List Char :=
  if p = [] then ['.']
  else
    let q := (p.reverse.dropWhile (fun c => c = '/')).reverse
    let r := (q.reverse.takeWhile (fun c => c ≠ '/')).reverse
    if r = [] then ['/'] else r

/-- Go `filepath.Ext`: the suffix of the last element starting at its final
dot, empty when the last element has no dot. -/
def goExt (p : List Char) : List Char :=
  let r := p.reverse.takeWhile (fun c => c ≠ '/')
  let pre := r.takeWhile (fun c => c ≠ '.')
  if pre.length = r.length then [] else (pre ++ ['.']).reverse

/-- Go `filepath.Dir` on unix: everything up to and including the final slash,
cleaned (`.` when the path holds no slash). -/
def goDir (p : List Char) : List Char :=
  clean ((p.reverse.dropWhile (fun c => c ≠ '/')).reverse)

/-- Go `filepath.Join` restricted to two elements, as called in both versions:
skip leading empty elements, then clean the `/`-joined rest. -/
def goJoin2 (a b : List Char) : List Char :=
  if a = [] then (if b = [] then [] else clean b) else clean (a ++ '/' :: b)

/-- Go `strings.TrimSuffix`. -/
def trimSuffix (s suf : List Char) : List Char :=
  if suf.isSuffixOf s then s.take (s.length - suf.length) else s

/-! ## Output-path computation -/

/-- The output path computed inside `enqueue`'s per-size loop in V1
(`src/main.go` lines 123–136): `dir` is `outFolder` unless empty, in which case
the source's directory; `base` is `Join(dir, TrimSuffix(Base(path),
Ext(path)))`; the path is `%s.%s` for height 0 and `%s-%dp.%s` otherwise. -/
def newpathV1 (outFolder path : List Char) (size : Size) : List Char :=
  let dir := if outFolder = [] then goDir path else outFolder
  let base := goJoin2 dir (trimSuffix (goBase path) (goExt path))
  if size.Height = 0 then base ++ '.' :: size.Format
  else base ++ '-' :: (toString size.Height).data ++ 'p' :: '.' :: size.Format

/-- The output path computed inside `process`'s per-size loop in V2
(`src/unnamed/part_000` lines 113–129); textually the same computation as
V1's. -/
def newpathV2 (outFolder path : List Char) (size : Size) : List Char :=
  let dir := if outFolder = [] then goDir path else outFolder
  let base := goJoin2 dir (trimSuffix (goBase path) (goExt path))
  if size.Height = 0 then base ++ '.' :: size.Format
  else base ++ '-' :: (toString size.Height).data ++ 'p' :: '.' :: size.Format

/-! ## Freshness check, lazy decode and job fan-out (`enqueue`, V1)

File-system reads are an explicit environment: `statTime p` is the
modification time reported by `os.Stat p` (`none`: stat fails / the path does
not exist), `openErr p` is the operating-system error text when `os.Open p`
fails, `decodeRes p` is what `image.Decode` yields for the opened file, and
`createErr`/`encodeErr` are the failures of `os.Create` and of a recognized
encoder, keyed by output path.  The raster type `α` is opaque. -/

structure Env (α : Type) where
  statTime : List Char → Option Nat
  openErr : List Char → Option (List Char)
  decodeRes : List Char → Except (List Char) α
  createErr : List Char → Option (List Char)
  encodeErr : List Char → Option (List Char)

/-- The run configuration fields that the claims depend on. -/
structure Config where
  ifNewer : Bool
  outFolder : List Char
  sizes : List Size

/-- The `ifNewer` check inlined in `enqueue` (`src/main.go` lines 138–150),
extracted as the spec's `isStale(sourcePath, outputPath, enabled)` contract:
the size is skipped (stale = `false`) exactly when the feature is enabled,
`os.Stat` succeeds on the output and then on the source, and
`outfi.ModTime().After(srcfi.ModTime())` holds (strictly newer). -/
def isStale (statTime : List Char → Option Nat) (src out : List Char)
    (enabled : Bool) : Bool :=
  if enabled then
    match statTime out with
    | none => true
    | some om =>
      match statTime src with
      | none => true
      | some sm => !(decide (sm < om))
  else true

/-- The Go struct `Job` from V1 (the decoded raster, the size, the output path
and the source path). -/
structure Job (α : Type) where
  img : α
  size : Size
  outPath : List Char
  origPath : List Char

/-- The per-size loop of `enqueue` (V1): for each size compute the output
path, skip it when fresh, decode lazily on the first stale size (`if img ==
nil`), and emit one `Job` per stale size.  Returns the emitted jobs (or the
first error) paired with the number of `image.Decode` calls. -/
def enqueueLoop (env : Env α) (cfg : Config) (path : List Char) :
    List Size → Option α → Except (List Char) (List (Job α)) × Nat
  | [], _ => (.ok [], 0)
  | size :: rest, img =>
    let np := newpathV1 cfg.outFolder path size
    if isStale env.statTime path np cfg.ifNewer then
      match img with
      | none =>
        match env.decodeRes path with
        | .error e => (.error (chars "decode image: " ++ e), 1)
        | .ok im =>
          let (r, c) := enqueueLoop env cfg path rest (some im)
          ((r.map (fun js => ⟨im, size, np, path⟩ :: js)), c + 1)
      | some im =>
        let (r, c) := enqueueLoop env cfg path rest (some im)
        ((r.map (fun js => ⟨im, size, np, path⟩ :: js)), c)
    else
      enqueueLoop env cfg path rest img

/-- V1 `enqueue` (`src/main.go` lines 106–167): open the source (wrapping an
`os.Open` failure, whose `*PathError` text names the path, as
`fmt.Errorf("open file: %w", err)`), then run the per-size loop with no raster
loaded yet. -/
def enqueue (env : Env α) (cfg : Config) (path : List Char) :
    Except (List Char) (List (Job α)) × Nat :=
  match env.openErr path with
  | some e => (.error (chars "open file: open " ++ path ++ chars ": " ++ e), 0)
  | none => enqueueLoop env cfg path cfg.sizes none

/-- The encoders reachable from `encode`'s switch. -/
inductive Codec
  | webp
  | jpeg
  | png
deriving DecidableEq

/-- The format dispatch of `encode` (identical in both versions): `webp`,
`jpeg`/`jpg` and `png` select an encoder; anything else is
`fmt.Errorf("unknown format %s", format)`. -/
def encodeFormat (format : List Char) : Except (List Char) Codec :=
  if format = chars "webp" then .ok .webp
  else if format = chars "jpeg" ∨ format = chars "jpg" then .ok .jpeg
  else if format = chars "png" then .ok .png
  else .error (chars "unknown format " ++ format)

/-- V1 `doJob`: resize (pure, opaque), `os.Create` the output (failure wrapped
as `create file %s: %w` naming the output path), then `encode` (failure — an
unknown format or an encoder error — wrapped as `encode file %s: %w` naming
the output path). -/
def doJob (env : Env α) (job : Job α) : Except (List Char) Unit :=
  match env.createErr job.outPath with
  | some e => .error (chars "create file " ++ job.outPath ++ chars ": " ++ e)
  | none =>
    match encodeFormat job.size.Format with
    | .error e => .error (chars "encode file " ++ job.outPath ++ chars ": " ++ e)
    | .ok _ =>
      match env.encodeErr job.outPath with
      | some e => .error (chars "encode file " ++ job.outPath ++ chars ": " ++ e)
      | none => .ok ()

/-- Run one file's jobs in order, stopping at the first failure; a failing job
is reported with the worker goroutine's `log.Fatalf` text
`failed to process image: %s`. -/
def runJobs (env : Env α) : List (Job α) → Except (List Char) Unit
  | [] => .ok ()
  | j :: rest =>
    match doJob env j with
    | .error e => .error (chars "failed to process image: " ++ e)
    | .ok _ => runJobs env rest

/-- One file's work in V1, sequentially: a failing `enqueue` is reported with
the scanner goroutine's `log.Fatalf` text `failed to resize image: %s`,
otherwise the file's jobs run. -/
def processFile (env : Env α) (cfg : Config) (path : List Char) :
    Except (List Char) Unit :=
  match (enqueue env cfg path).1 with
  | .error e => .error (chars "failed to resize image: " ++ e)
  | .ok jobs => runJobs env jobs

/-- The run's observable outcome, as one admissible (sequential) schedule of
V1's `main`: `log.Fatalf` exits the process with code 1 at the first failing
task, carrying that task's message; if every admitted task completes the
process reaches the end of `main` and exits 0. -/
def runExit (env : Env α) (cfg : Config) :
    List (List Char) → Nat × Option (List Char)
  | [] => (0, none)
  | f :: rest =>
    match processFile env cfg f with
    | .error e => (1, some e)
    | .ok _ => runExit env cfg rest

/-! ## IEEE-754 binary32 model for `calcWidth` / `calcSize`

`calcWidth` computes `int((float32(w) / float32(h)) * float32(newh))`.  The
model represents a finite `float32` value as a sign, a 24-bit significand and
a scale: the value is `±mant · 2^exp` with `mant ∈ [2^23, 2^24)` for nonzero
values.  Every operation rounds the exact rational result to the nearest such
number, ties to even — exactly IEEE-754 binary32 on the normal range, which
contains every value reachable from 64-bit integer pixel dimensions (no
overflow, underflow or NaN arises there; division by zero is out of the
modelled domain). -/

structure F32 where
  sign : Bool
  mant : Nat
  exp : Int
deriving DecidableEq, Repr

/-- The zero value. -/
def F32.zero : F32 :=
  ⟨false, 0, 0⟩

/-- Fuel-driven binary logarithm (structural recursion, so that concrete
rounding computations reduce inside the kernel). -/
def log2Fuel : Nat → Nat → Nat
  | 0, _ => 0
  | fuel + 1, n => if 2 ≤ n then log2Fuel fuel (n / 2) + 1 else 0

/-- `⌊log₂ n⌋` for `n ≥ 1`. -/
def natLog2 (n : Nat) : Nat :=
  log2Fuel n n

/-- Whether `a / b ≥ 2^d` for positive naturals `a`, `b`. -/
def gePow (a b : Nat) (d : Int) : Bool :=
  if 0 ≤ d then b * 2 ^ d.toNat ≤ a else b ≤ a * 2 ^ (-d).toNat

/-- Round the positive rational `a / b` (`a, b ≥ 1`) to the nearest 24-bit
significand, ties to even. -/
def roundPosRat (a b : Nat) : F32 :=
  let d : Int := (natLog2 a : Int) - (natLog2 b : Int)
  let e : Int := if gePow a b d then d else d - 1
  let t : Int := 23 - e
  let num := if 0 ≤ t then a * 2 ^ t.toNat else a
  let den := if 0 ≤ t then b else b * 2 ^ (-t).toNat
  let q := num / den
  let r := num % den
  let m := if den < 2 * r then q + 1 else if 2 * r < den then q else q + q % 2
  if m = 2 ^ 24 then ⟨false, 2 ^ 23, e - 22⟩ else ⟨false, m, e - 23⟩

/-- Round the signed rational `±(a / b)` to `F32`. -/
def mkF32 (sign : Bool) (a b : Nat) : F32 :=
  if a = 0 ∨ b = 0 then F32.zero
  else
    let f := roundPosRat a b
    ⟨sign, f.mant, f.exp⟩

/-- Go conversion `float32(n)` for a 64-bit `int` `n`. -/
def f32ofInt (n : Int) : F32 :=
  mkF32 (n < 0) n.natAbs 1

/-- `float32` division (finite operands; a zero divisor is outside the
modelled domain and yields zero here). -/
def f32div (x y : F32) : F32 :=
  if x.mant = 0 ∨ y.mant = 0 then F32.zero
  else
    let s := xor x.sign y.sign
    let e := x.exp - y.exp
    if 0 ≤ e then mkF32 s (x.mant * 2 ^ e.toNat) y.mant
    else mkF32 s x.mant (y.mant * 2 ^ (-e).toNat)

/-- `float32` multiplication (finite operands). -/
def f32mul (x y : F32) : F32 :=
  if x.mant = 0 ∨ y.mant = 0 then F32.zero
  else
    let s := xor x.sign y.sign
    let e := x.exp + y.exp
    if 0 ≤ e then mkF32 s (x.mant * y.mant * 2 ^ e.toNat) 1
    else mkF32 s (x.mant * y.mant) (2 ^ (-e).toNat)

/-- Go conversion `int(f)` for a finite `float32` `f`: truncation toward
zero. -/
def f32toInt (x : F32) : Int :=
  let mag : Nat := if 0 ≤ x.exp then x.mant * 2 ^ x.exp.toNat else x.mant / 2 ^ (-x.exp).toNat
  if x.sign then -(mag : Int) else (mag : Int)

/-- V1 `calcWidth` (`src/main.go` lines 202–204):
`int((float32(w) / float32(h)) * float32(newh))`. -/
def calcWidth (w h newh : Int) : Int :=
  f32toInt (f32mul (f32div (f32ofInt w) (f32ofInt h)) (f32ofInt newh))

/-- V2 `calcSize` (`src/unnamed/part_000` lines 147–149): the same width
formula, paired with the target height. -/
def calcSize (w h newh : Int) : Int × Int :=
  (f32toInt (f32mul (f32div (f32ofInt w) (f32ofInt h)) (f32ofInt newh)), newh)

/-- The width formula as the spec words it: `(w / h) * n` evaluated in
floating point, then truncated toward zero (not rounded). -/
def specWidth (w h n : Int) : Int :=
  f32toInt (f32mul (f32div (f32ofInt w) (f32ofInt h)) (f32ofInt n))

/-- The naming contract as the spec words it: `{dir}/{base}.{format}` for
height 0 and `{dir}/{base}-{height}p.{format}` otherwise, with `/` read as
path joining, `dir` the override directory or by default the source's own
directory, and `base` the source filename with its extension removed. -/
def specOutputPath (outFolder path : List Char) (size : Size) : List Char :=
  let dir := if outFolder = [] then goDir path else outFolder
  let base := trimSuffix (goBase path) (goExt path)
  if size.Height = 0 then goJoin2 dir base ++ chars "." ++ size.Format
  else goJoin2 dir base ++ chars "-" ++ (toString size.Height).data ++ chars "p." ++ size.Format

/-! ## Interleaving models of the two `main` functions (concurrency bound)

Each goroutine's progress is broken into atomic steps; a run is any list of
steps, applied in order, where a step that is not enabled in the current state
makes the whole run invalid (`none`).  This covers every interleaving the Go
scheduler can produce for the constructs involved (a weighted semaphore of
capacity `limit`, an unbuffered-by-capacity job channel, and `limit` worker
goroutines in V1). -/

/-- Status of one file's goroutine in either version: not yet past
`sem.Acquire`, holding a semaphore unit, or released. -/
inductive TStat
  | pending
  | running
  | done
deriving DecidableEq, Repr

/-- Whether a task status is `running`. -/
def TStat.isRunning : TStat → Bool
  | .running => true
  | _ => false

/-- V2 (`src/unnamed/part_000` lines 65–83): one goroutine per file, which
acquires one semaphore unit, runs `process(f)` entirely, and releases. -/
structure StV2 where
  sem : Nat
  tasks : List TStat
deriving DecidableEq, Repr

/-- V2 steps: `start i` is `sem.Acquire` succeeding for file `i` (enabled only
with a unit available) and entering `process`; `finish i` is `process`
returning and `sem.Release`. -/
inductive StepV2
  | start (i : Nat)
  | finish (i : Nat)
deriving DecidableEq, Repr

/-- One atomic step of the V2 model. -/
def applyV2 (s : StV2) (st : StepV2) : Option StV2 :=
  match st with
  | .start i =>
    if s.tasks.get? i = some .pending ∧ 0 < s.sem then
      some ⟨s.sem - 1, s.tasks.set i .running⟩
    else none
  | .finish i =>
    if s.tasks.get? i = some .running then
      some ⟨s.sem + 1, s.tasks.set i .done⟩
    else none

/-- Apply a list of steps in order; `none` if any step is not enabled. -/
def runSteps {σ π : Type} (f : σ → π → Option σ) : σ → List π → Option σ
  | s, [] => some s
  | s, p :: ps =>
    match f s p with
    | none => none
    | some s' => runSteps f s' ps

/-- V2 initial state: `semaphore.NewWeighted(limit)` full, every file's
goroutine yet to acquire. -/
def initV2 (limit nfiles : Nat) : StV2 :=
  ⟨limit, List.replicate nfiles .pending⟩

/-- Number of tasks currently holding a semaphore unit. -/
def countRunning (ts : List TStat) : Nat :=
  (ts.filter TStat.isRunning).length

/-- V1 (`src/main.go` lines 77–104): per file, a scanner goroutine acquires a
semaphore unit, runs `enqueue` (decode and job emission), and releases;
`limit` worker goroutines each repeatedly take one job from the `jobs` channel
and run `doJob` on it.  A job is identified by the index of its source file. -/
structure StV1 where
  sem : Nat
  scan : List TStat
  queue : List Nat
  workers : List (Option Nat)
deriving DecidableEq, Repr

/-- V1 steps: `startScan i` acquires the semaphore for file `i`'s `enqueue`;
`emitJob i` sends one of file `i`'s jobs on the channel while scanning;
`endScan i` returns from `enqueue` and releases; `take w` has idle worker `w`
receive the oldest queued job; `finish w` completes that job. -/
inductive StepV1
  | startScan (i : Nat)
  | emitJob (i : Nat)
  | endScan (i : Nat)
  | take (w : Nat)
  | finish (w : Nat)
deriving DecidableEq, Repr

/-- One atomic step of the V1 model. -/
def applyV1 (s : StV1) (st : StepV1) : Option StV1 :=
  match st with
  | .startScan i =>
    if s.scan.get? i = some .pending ∧ 0 < s.sem then
      some ⟨s.sem - 1, s.scan.set i .running, s.queue, s.workers⟩
    else none
  | .emitJob i =>
    if s.scan.get? i = some .running then
      some ⟨s.sem, s.scan, s.queue ++ [i], s.workers⟩
    else none
  | .endScan i =>
    if s.scan.get? i = some .running then
      some ⟨s.sem + 1, s.scan.set i .done, s.queue, s.workers⟩
    else none
  | .take w =>
    match s.queue with
    | [] => none
    | j :: rest =>
      if s.workers.get? w = some none then
        some ⟨s.sem, s.scan, rest, s.workers.set w (some j)⟩
      else none
  | .finish w =>
    match s.workers.get? w with
    | some (some _) => some ⟨s.sem, s.scan, s.queue, s.workers.set w none⟩
    | _ => none

/-- V1 initial state: full semaphore, no file scanned yet, empty job channel,
`limit` idle workers. -/
def initV1 (limit nfiles : Nat) : StV1 :=
  ⟨limit, List.replicate nfiles .pending, [], List.replicate limit none⟩

/-- Number of busy workers. -/
def countBusy (ws : List (Option Nat)) : Nat :=
  (ws.filter (fun w => w ≠ none)).length

/-- A file is mid-processing in the V1 model when its `enqueue` holds a
semaphore unit or a worker is running one of its jobs (jobs merely waiting in
the channel are not counted). -/
def isMid (s : StV1) (i : Nat) : Bool :=
  decide (s.scan.get? i = some .running) || s.workers.contains (some i)

/-- Number of files of a run with `nfiles` source files that are
mid-processing in state `s`. -/
def midFiles (s : StV1) (nfiles : Nat) : Nat :=
  ((List.range nfiles).filter (isMid s)).length

/-! ## Auxiliary definitions for the statements -/

/-- Whether `needle` occurs as a contiguous run inside `hay` (used to state
that an error message names a path or token). -/
def hasChunk (needle : List Char) : List Char → Bool
  | [] => needle.isEmpty
  | c :: t => needle.isPrefixOf (c :: t) || hasChunk needle t

/-- The spec's "valid non-negative integer", made precise as what the
implementation's integer parser accepts on a minus-free string: one or more
decimal digits, optionally preceded by `+`, with value below `2^63`. -/
def validNonNegInt (s : List Char) : Bool :=
  let ds := if s.head? = some '+' then s.drop 1 else s
  !(decide (ds = [])) && ds.all Char.isDigit && decide (digitsVal ds < 2 ^ 63)

/-- A benign environment over raster type `Nat`: every file opens and stats
fail (nothing is ever fresh), decoding yields raster `7`, creating and
encoding succeed. -/
def envA : Env Nat :=
  ⟨fun _ => none, fun _ => none, fun _ => .ok 7, fun _ => none, fun _ => none⟩

/-- An environment whose only failure is that decoding yields the pathless
`image: unknown format` error. -/
def envDecodeFail : Env Nat :=
  ⟨fun _ => none, fun _ => none, fun _ => .error (chars "image: unknown format"),
   fun _ => none, fun _ => none⟩

/-- An environment in which `os.Open` fails with `no such file or directory`
for every path. -/
def envOpenFail : Env Nat :=
  ⟨fun _ => none, fun _ => some (chars "no such file or directory"),
   fun _ => .error [], fun _ => none, fun _ => none⟩

/-- The default configuration: `ifNewer` off, no output-directory override,
the default size list. -/
def cfgA : Config :=
  ⟨false, [], defaultSizes⟩

/-- A V1 schedule with `parallel = 2`: files 0 and 1 are scanned and their
first jobs taken by the two workers, then files 2 and 3 begin scanning.  Four
files are then mid-processing at once. -/
def overlapSteps : List StepV1 :=
  [.startScan 0, .emitJob 0, .endScan 0, .startScan 1, .emitJob 1, .endScan 1,
   .take 0, .take 1, .startScan 2, .startScan 3]

/-! # Claims -/

/-- C1: for every source path, output path and enabled flag, the freshness
check returns stale = false (skip the size) if and only if the feature is
enabled, stat succeeds on both paths, and the output's modification time is
strictly after the source's; in every other case (feature disabled, output
missing, either stat failing, or the output not strictly newer) it returns
stale = true (regenerate). -/
theorem c1_isStale_iff :
    ∀ (statT : List Char → Option Nat) (src out : List Char) (enabled : Bool),
      isStale statT src out enabled = false ↔
        (enabled = true ∧ ∃ om sm, statT out = some om ∧ statT src = some sm ∧ sm < om) := by
  intro statT src out enabled
  cases enabled with
  | false => simp [isStale]
  | true =>
    simp only [isStale, if_true]
    cases hout : statT out with
    | none => simp
    | some om =>
      cases hsrc : statT src with
      | none => simp
      | some sm => simp

/-- C2: the computed output path follows the `{dir}/{base}.{format}` /
`{dir}/{base}-{height}p.{format}` contract, where `dir` is the `outDir`
override when set and otherwise the source file's own directory, and `base`
is the source filename with its extension removed; both versions of the
program compute the same path; in particular `photo.jpg` maps to
`photo-480p.webp` and (height 0, png) to `photo.png`. -/
theorem c2_output_path :
    (∀ (outFolder path : List Char) (z : Size),
        newpathV1 outFolder path z = specOutputPath outFolder path z ∧
        newpathV2 outFolder path z = newpathV1 outFolder path z) ∧
    newpathV1 [] (chars "photo.jpg") ⟨480, chars "webp"⟩ = chars "photo-480p.webp" ∧
    newpathV1 [] (chars "photo.jpg") ⟨0, chars "png"⟩ = chars "photo.png" ∧
    newpathV1 (chars "out") (chars "imgs/photo.jpg") ⟨720, chars "jpg"⟩ =
      chars "out/photo-720p.jpg" := by
  refine ⟨fun outFolder path z => ⟨?_, rfl⟩, by decide, by decide, by decide⟩
  simp [newpathV1, specOutputPath, chars]

/-- C3: parsing `480,720-png,1080` yields exactly `[{480, webp}, {720, png},
{1080, webp}]` in that order, the default codec being `webp`; duplicates are
kept without deduplication. -/
theorem c3_parse_size_list :
    parseSizes (chars "480,720-png,1080") =
      .ok [⟨480, defaultFormat⟩, ⟨720, chars "png"⟩, ⟨1080, defaultFormat⟩] ∧
    defaultFormat = chars "webp" ∧
    parseSizes (chars "480,480") = .ok [⟨480, defaultFormat⟩, ⟨480, defaultFormat⟩] := by
  refine ⟨by decide, rfl, by decide⟩

/-- C5: target width is floating-point division followed by truncation toward
zero: a 1920×1080 source at target height 720 gives exactly width 1280 (in
both versions), `calcWidth 3 2 1 = 1` exhibits truncation rather than
rounding, and for every width, positive height and target height both
versions equal the truncated float32 product `(w / h) * n`. -/
theorem c5_calc_width :
    calcWidth 1920 1080 720 = 1280 ∧
    calcSize 1920 1080 720 = (1280, 720) ∧
    calcWidth 3 2 1 = 1 ∧
    (∀ w h n : Int, 0 < h →
      calcWidth w h n = specWidth w h n ∧ (calcSize w h n).1 = specWidth w h n) := by
  exact ⟨by decide, by decide, by decide, fun w h n _ => ⟨rfl, rfl⟩⟩

/-- Witness for C5 at the spec's example: 1080 is a positive height and the
1920×1080 → 720 width equals the spec's float-then-truncate formula. -/
theorem c5_calc_width_witness :
    calcWidth 1920 1080 720 = specWidth 1920 1080 720 :=
  (c5_calc_width.2.2.2 1920 1080 720 (by decide)).1

/-- A string that does not contain `-` does not start with `-`. -/
theorem head_ne_dash {s : List Char} (hs : '-' ∉ s) : (s.head? = some '-') = False := by
  simp only [eq_iff_iff, iff_false]
  intro hc
  cases s with
  | nil => simp at hc
  | cons c t =>
    simp at hc
    exact hs (hc ▸ List.mem_cons_self c t)

/-- On a minus-free string, `strconv.Atoi` succeeds exactly on the strings
`validNonNegInt` accepts. -/
theorem goAtoi_ok_iff {s : List Char} (hs : '-' ∉ s) :
    (∃ v, goAtoi s = .ok v) ↔ validNonNegInt s = true := by
  simp only [goAtoi, validNonNegInt, head_ne_dash hs, decide_False, false_or]
  generalize (if s.head? = some '+' then s.drop 1 else s) = ds
  by_cases h1 : ds = []
  · simp [h1]
  · by_cases h2 : ds.all Char.isDigit
    · rw [if_neg (by simp [h1, h2])]
      simp only [Bool.false_eq_true, if_false, ge_iff_le]
      by_cases h3 : (2 : Nat) ^ 63 ≤ digitsVal ds
      · rw [if_pos h3]
        constructor
        · rintro ⟨v, hv⟩
          exact absurd hv (by simp)
        · intro hr
          simp only [Bool.and_eq_true, decide_eq_true_eq] at hr
          omega
      · rw [if_neg h3]
        constructor
        · intro _
          simp [h1, h2]
          omega
        · intro _
          exact ⟨_, rfl⟩
    · rw [if_pos (by simp [h2])]
      simp [h2]

/-- On a minus-free string, a successful `strconv.Atoi` yields a non-negative
value. -/
theorem goAtoi_nonneg {s : List Char} (hs : '-' ∉ s) {v : Int} (h : goAtoi s = .ok v) :
    0 ≤ v := by
  simp only [goAtoi, head_ne_dash hs, decide_False, false_or] at h
  generalize (if s.head? = some '+' then s.drop 1 else s) = ds at h
  split at h
  · exact absurd h (by simp)
  · simp only [Bool.false_eq_true, if_false] at h
    split at h
    · exact absurd h (by simp)
    · simp only [Except.ok.injEq] at h
      exact h ▸ Int.ofNat_nonneg _

/-- The prefix before the first `-` contains no `-`. -/
theorem preDash_no_dash (s : List Char) : '-' ∉ preDash s := by
  intro hc
  have := List.mem_takeWhile_imp hc
  simp at this

/-- `parseSize` factored through `Atoi` on the token's numeric prefix: the
result, and on failure the wrapped error text, are determined by
`goAtoi (preDash str)`. -/
theorem parseSize_eq (s : List Char) :
    parseSize s =
      match goAtoi (preDash s) with
      | .error e => .error (chars "parse " ++ preDash s ++ chars ": " ++ e.render)
      | .ok v => .ok ⟨v, if '-' ∈ s then postDash s else defaultFormat⟩ := by
  by_cases h : '-' ∈ s
  · simp only [parseSize, if_pos h, h, if_true]
  · have hpre : preDash s = s := by
      apply List.takeWhile_eq_self_iff.mpr
      intro c hc
      simp only [ne_eq, decide_eq_true_eq]
      exact fun e => h (e ▸ hc)
    simp only [parseSize, if_neg h, hpre, h, if_false]

/-- C10: every `Size` returned successfully by `parseSize` has a non-negative
height — the token is split at its first `-`, so the numeric prefix can never
carry a minus sign — and a token beginning with `-`, such as `-480`, fails
with a parse error because its numeric prefix is empty. -/
theorem c10_heights_nonneg :
    (∀ (s : List Char) (z : Size), parseSize s = .ok z → 0 ≤ z.Height) ∧
    parseSize (chars "-480") =
      .error (chars "parse : strconv.Atoi: parsing \"\": invalid syntax") := by
  constructor
  · intro s z h
    rw [parseSize_eq] at h
    cases hg : goAtoi (preDash s) with
    | error e =>
      rw [hg] at h
      exact absurd h (by simp)
    | ok v =>
      rw [hg] at h
      simp only [Except.ok.injEq] at h
      have := goAtoi_nonneg (preDash_no_dash s) hg
      rw [← h]
      exact this
  · decide

/-- Witness for C10 at the token `480`. -/
theorem c10_witness :
    0 ≤ (Size.mk 480 (chars "webp")).Height :=
  c10_heights_nonneg.1 (chars "480") ⟨480, chars "webp"⟩ (by decide)

/-- C7 counterexample: parsing the token `xy-png` fails with an error that
names only the numeric prefix `xy`; the error text does not contain the
offending token `xy-png`. -/
theorem c7_counterexample :
    parseSize (chars "xy-png") =
      .error (chars "parse xy: strconv.Atoi: parsing \"xy\": invalid syntax") ∧
    hasChunk (chars "xy-png")
      (chars "parse xy: strconv.Atoi: parsing \"xy\": invalid syntax") = false := by
  constructor <;> decide

/-- C7 amended: a size-list token parses successfully exactly when its numeric
prefix (the whole token when no `-` separator is present, the part before the
first `-` otherwise) is a valid non-negative integer for the implementation's
parser; otherwise parsing fails with a parse error naming the offending
prefix — hence naming the whole token exactly when no separator is present;
in particular `abc` fails with an error naming `abc`. -/
theorem c7_parse_error_names :
    (∀ s : List Char, (∃ z, parseSize s = .ok z) ↔ validNonNegInt (preDash s) = true) ∧
    (∀ s : List Char, validNonNegInt (preDash s) = false →
      ∃ m, parseSize s = .error (chars "parse " ++ preDash s ++ chars ": " ++ m)) ∧
    parseSize (chars "abc") =
      .error (chars "parse abc: strconv.Atoi: parsing \"abc\": invalid syntax") ∧
    hasChunk (chars "abc")
      (chars "parse abc: strconv.Atoi: parsing \"abc\": invalid syntax") = true := by
  refine ⟨?_, ?_, by decide, by decide⟩
  · intro s
    rw [parseSize_eq]
    cases hg : goAtoi (preDash s) with
    | error e =>
      simp only
      constructor
      · rintro ⟨z, hz⟩
        exact absurd hz (by simp)
      · intro hv
        rcases (goAtoi_ok_iff (preDash_no_dash s)).mpr hv with ⟨v, hok⟩
        rw [hg] at hok
        exact absurd hok (by simp)
    | ok v =>
      simp only
      constructor
      · intro _
        exact (goAtoi_ok_iff (preDash_no_dash s)).mp ⟨v, hg⟩
      · intro _
        exact ⟨_, rfl⟩
  · intro s hval
    rw [parseSize_eq]
    cases hg : goAtoi (preDash s) with
    | error e => exact ⟨e.render, rfl⟩
    | ok v =>
      have := (goAtoi_ok_iff (preDash_no_dash s)).mp ⟨v, hg⟩
      rw [hval] at this
      exact absurd this (by simp)

/-- Witness for C7 at the token `xy-png`, whose prefix `xy` is invalid. -/
theorem c7_witness :
    ∃ m, parseSize (chars "xy-png") =
      .error (chars "parse " ++ preDash (chars "xy-png") ++ chars ": " ++ m) :=
  c7_parse_error_names.2.1 (chars "xy-png") (by decide)

/-- C6 counterexample: the size token `480-bmp` passes startup parsing —
`parseSize` accepts the unknown format `bmp` — and the unknown-format error
first arises in `encode`'s runtime dispatch, contradicting detection at
startup. -/
theorem c6_counterexample :
    parseSize (chars "480-bmp") = .ok ⟨480, chars "bmp"⟩ ∧
    encodeFormat (chars "bmp") = .error (chars "unknown format bmp") := by
  constructor <;> decide

/-- C6 amended: `parseSize` performs no format validation, so an unrecognized
output format is accepted at startup and is first reported at runtime, when
`encode` dispatches on the format and fails with `unknown format <fmt>`. -/
theorem c6_amended : ∀ fmt : List Char,
    parseSize (chars "480-" ++ fmt) = .ok ⟨480, fmt⟩ ∧
    (fmt ≠ chars "webp" → fmt ≠ chars "jpeg" → fmt ≠ chars "jpg" → fmt ≠ chars "png" →
      encodeFormat fmt = .error (chars "unknown format " ++ fmt)) := by
  intro fmt
  constructor
  · have hpre : preDash (chars "480-" ++ fmt) = chars "480" := by
      simp [preDash, chars]
    have hpost : postDash (chars "480-" ++ fmt) = fmt := by
      simp [postDash, chars]
    have hmem : '-' ∈ chars "480-" ++ fmt := by
      simp [chars]
    have hatoi : goAtoi (chars "480") = .ok 480 := by decide
    rw [parseSize_eq, hpre, hatoi]
    simp [hmem, hpost]
  · intro h1 h2 h3 h4
    simp [encodeFormat, h1, h2, h3, h4]

/-- Witness for C6 at the unrecognized format `bmp`. -/
theorem c6_witness :
    encodeFormat (chars "bmp") = .error (chars "unknown format " ++ chars "bmp") :=
  (c6_amended (chars "bmp")).2 (by decide) (by decide) (by decide) (by decide)

/-- Once the raster is loaded, the per-size loop never decodes again and every
job it emits carries that raster. -/
theorem enqueueLoop_some {α : Type} (env : Env α) (cfg : Config) (path : List Char) (im : α) :
    ∀ sizes : List Size,
      (enqueueLoop env cfg path sizes (some im)).2 = 0 ∧
      (∀ jobs, (enqueueLoop env cfg path sizes (some im)).1 = .ok jobs →
        ∀ j ∈ jobs, j.img = im) := by
  intro sizes
  induction sizes with
  | nil =>
    refine ⟨rfl, ?_⟩
    intro jobs h
    simp only [enqueueLoop, Except.ok.injEq] at h
    intro j hj
    rw [← h] at hj
    simp at hj
  | cons z rest ih =>
    obtain ⟨ih2, ihjobs⟩ := ih
    cases hst : isStale env.statTime path (newpathV1 cfg.outFolder path z) cfg.ifNewer with
    | false =>
      simp only [enqueueLoop, hst, Bool.false_eq_true, if_false]
      exact ⟨ih2, ihjobs⟩
    | true =>
      simp only [enqueueLoop, hst, if_true]
      cases hp : enqueueLoop env cfg path rest (some im) with
      | mk r c =>
        rw [hp] at ih2 ihjobs
        constructor
        · exact ih2
        · intro jobs h
          cases r with
          | error e => exact absurd h (by simp [Except.map])
          | ok js =>
            simp only [Except.map, Except.ok.injEq] at h
            intro j hj
            rw [← h] at hj
            rcases List.mem_cons.mp hj with hj1 | hj2
            · rw [hj1]
            · exact ihjobs js rfl j hj2

/-- Starting with no raster loaded, the per-size loop decodes zero times when
every size is fresh and exactly once otherwise, and every emitted job carries
the decoded raster. -/
theorem enqueueLoop_none {α : Type} (env : Env α) (cfg : Config) (path : List Char) :
    ∀ sizes : List Size,
      ((enqueueLoop env cfg path sizes none).2 =
        if sizes.all (fun z =>
            !(isStale env.statTime path (newpathV1 cfg.outFolder path z) cfg.ifNewer)) then 0
        else 1) ∧
      (∀ jobs, (enqueueLoop env cfg path sizes none).1 = .ok jobs →
        ∀ j ∈ jobs, env.decodeRes path = .ok j.img) := by
  intro sizes
  induction sizes with
  | nil =>
    refine ⟨rfl, ?_⟩
    intro jobs h
    simp only [enqueueLoop, Except.ok.injEq] at h
    intro j hj
    rw [← h] at hj
    simp at hj
  | cons z rest ih =>
    obtain ⟨ih2, ihjobs⟩ := ih
    cases hst : isStale env.statTime path (newpathV1 cfg.outFolder path z) cfg.ifNewer with
    | false =>
      simp only [enqueueLoop, hst, Bool.false_eq_true, if_false, List.all_cons,
        Bool.not_false, Bool.true_and]
      exact ⟨ih2, ihjobs⟩
    | true =>
      simp only [enqueueLoop, hst, if_true, List.all_cons, Bool.not_true, Bool.false_and,
        Bool.false_eq_true, if_false]
      cases hd : env.decodeRes path with
      | error e =>
        refine ⟨rfl, ?_⟩
        intro jobs h
        simp only [] at h
        exact absurd h (by simp)
      | ok im =>
        obtain ⟨hs2, hsjobs⟩ := enqueueLoop_some env cfg path im rest
        constructor
        · simp only []
          rw [hs2]
        · intro jobs h
          simp only [] at h
          cases hr : (enqueueLoop env cfg path rest (some im)).1 with
          | error e2 =>
            rw [hr] at h
            exact absurd h (by simp [Except.map])
          | ok js =>
            rw [hr] at h
            simp only [Except.map, Except.ok.injEq] at h
            intro j hj
            rw [← h] at hj
            rcases List.mem_cons.mp hj with hj1 | hj2
            · rw [hj1]
            · rw [hsjobs js hr j hj2]

/-- C4: for every source file whose `os.Open` succeeds, the source raster is
decoded at most once: no decode at all when every requested size is judged
fresh, and exactly one decode otherwise — regardless of how many sizes are
stale, and even when the decode itself fails — with every emitted job sharing
the single decoded raster. -/
theorem c4_decode_once :
    ∀ (α : Type) (env : Env α) (cfg : Config) (path : List Char),
      env.openErr path = none →
      ((enqueue env cfg path).2 =
        if cfg.sizes.all (fun z =>
            !(isStale env.statTime path (newpathV1 cfg.outFolder path z) cfg.ifNewer)) then 0
        else 1) ∧
      (∀ jobs, (enqueue env cfg path).1 = .ok jobs →
        ∀ j ∈ jobs, env.decodeRes path = .ok j.img) := by
  intro α env cfg path hopen
  have he : enqueue env cfg path = enqueueLoop env cfg path cfg.sizes none := by
    simp only [enqueue, hopen]
  rw [he]
  exact enqueueLoop_none env cfg path cfg.sizes

/-- Witness for C4: in the benign environment (open succeeds) with the default
configuration, the decode count equals the stated conditional. -/
theorem c4_witness :
    (enqueue envA cfgA (chars "photo.jpg")).2 =
      if cfgA.sizes.all (fun z =>
          !(isStale envA.statTime (chars "photo.jpg")
              (newpathV1 cfgA.outFolder (chars "photo.jpg") z) cfgA.ifNewer)) then 0
      else 1 :=
  (c4_decode_once Nat envA cfgA (chars "photo.jpg") rfl).1


/-- A list is an `isPrefixOf`-prefix of itself followed by anything. -/
theorem isPrefixOf_append_self : ∀ l r : List Char, l.isPrefixOf (l ++ r) = true := by
  intro l
  induction l with
  | nil => intro r; simp
  | cons a t ih =>
    intro r
    simp only [List.cons_append, List.isPrefixOf_cons₂, beq_self_eq_true, Bool.true_and]
    exact ih r


/-- `hasChunk` finds the needle at the start of the haystack. -/
theorem hasChunk_self_append : ∀ needle suf : List Char, hasChunk needle (needle ++ suf) = true := by
  intro needle suf
  cases needle with
  | nil =>
    cases suf <;> simp [hasChunk, List.isEmpty]
  | cons c t =>
    have h1 := isPrefixOf_append_self (c :: t) suf
    simp only [List.cons_append] at h1
    simp [hasChunk, h1]

/-- `hasChunk` finds the needle anywhere between two other pieces. -/
theorem hasChunk_append : ∀ pre needle suf : List Char,
    hasChunk needle (pre ++ needle ++ suf) = true := by
  intro pre
  induction pre with
  | nil => intro needle suf; simpa using hasChunk_self_append needle suf
  | cons c p ih =>
    intro needle suf
    rw [show (c :: p) ++ needle ++ suf = c :: (p ++ needle ++ suf) by simp]
    simp only [hasChunk]
    rw [ih needle suf, Bool.or_true]

/-- C8 amended: the run exits 0 exactly when every admitted task completes
without error; any reported fatal message makes the exit code 1 and comes
from some failing file; open failures are logged with the source path and
create/encode failures with the output path (decode failures name neither —
see the counterexample). -/
theorem c8_fail_fast :
    ∀ (α : Type) (env : Env α) (cfg : Config) (files : List (List Char)),
      ((runExit env cfg files).1 = 0 ↔ ∀ f ∈ files, processFile env cfg f = .ok ()) ∧
      (∀ e, (runExit env cfg files).2 = some e →
        (runExit env cfg files).1 = 1 ∧ ∃ f ∈ files, processFile env cfg f = .error e) ∧
      (∀ p e, env.openErr p = some e →
        ∀ m, processFile env cfg p = .error m → hasChunk p m = true) ∧
      (∀ (j : Job α) (m : List Char), doJob env j = .error m → hasChunk j.outPath m = true) := by
  intro α env cfg files
  refine ⟨?_, ?_, ?_, ?_⟩
  · induction files with
    | nil => simp [runExit]
    | cons f rest ih =>
      cases hf : processFile env cfg f with
      | error e =>
        simp only [runExit, hf]
        constructor
        · intro h
          exact absurd h (by simp)
        · intro h
          have hff := h f (List.mem_cons_self f rest)
          rw [hf] at hff
          exact absurd hff (by simp)
      | ok u =>
        cases u
        simp only [runExit, hf]
        rw [ih, List.forall_mem_cons]
        simp [hf]
  · induction files with
    | nil =>
      intro e he
      exact absurd he (by simp [runExit])
    | cons f rest ih =>
      intro e he
      cases hf : processFile env cfg f with
      | error e0 =>
        rw [show runExit env cfg (f :: rest) = (1, some e0) by simp only [runExit, hf]] at he ⊢
        simp only [Option.some.injEq] at he
        exact ⟨rfl, f, List.mem_cons_self f rest, he ▸ hf⟩
      | ok u =>
        cases u
        rw [show runExit env cfg (f :: rest) = runExit env cfg rest by
          simp only [runExit, hf]] at he ⊢
        obtain ⟨h1, g, hg, hge⟩ := ih e he
        exact ⟨h1, g, List.mem_cons_of_mem f hg, hge⟩
  · intro p e he m hm
    simp only [processFile, enqueue, he] at hm
    simp only [Except.error.injEq] at hm
    rw [← hm]
    rw [show chars "failed to resize image: " ++
          (chars "open file: open " ++ p ++ chars ": " ++ e) =
        (chars "failed to resize image: " ++ chars "open file: open ") ++ p ++
          (chars ": " ++ e) by simp [List.append_assoc]]
    exact hasChunk_append _ p _
  · intro j m hm
    cases hc : env.createErr j.outPath with
    | some e =>
      simp only [doJob, hc, Except.error.injEq] at hm
      rw [← hm]
      rw [show chars "create file " ++ j.outPath ++ chars ": " ++ e =
          chars "create file " ++ j.outPath ++ (chars ": " ++ e) by simp [List.append_assoc]]
      exact hasChunk_append _ j.outPath _
    | none =>
      cases hf : encodeFormat j.size.Format with
      | error e2 =>
        simp only [doJob, hc, hf, Except.error.injEq] at hm
        rw [← hm]
        rw [show chars "encode file " ++ j.outPath ++ chars ": " ++ e2 =
            chars "encode file " ++ j.outPath ++ (chars ": " ++ e2) by simp [List.append_assoc]]
        exact hasChunk_append _ j.outPath _
      | ok cdc =>
        cases he2 : env.encodeErr j.outPath with
        | some e3 =>
          simp only [doJob, hc, hf, he2, Except.error.injEq] at hm
          rw [← hm]
          rw [show chars "encode file " ++ j.outPath ++ chars ": " ++ e3 =
              chars "encode file " ++ j.outPath ++ (chars ": " ++ e3) by simp [List.append_assoc]]
          exact hasChunk_append _ j.outPath _
        | none =>
          simp only [doJob, hc, hf, he2] at hm
          exact absurd hm (by simp)

/-- C8 counterexample: a decode failure is logged as
`failed to resize image: decode image: image: unknown format`, which contains
neither the source path `photo.jpg` nor any of the run's output paths, so the
first fatal error is not always logged with the offending source or output
path. -/
theorem c8_counterexample :
    runExit envDecodeFail cfgA [chars "photo.jpg"] =
      (1, some (chars "failed to resize image: decode image: image: unknown format")) ∧
    hasChunk (chars "photo.jpg")
      (chars "failed to resize image: decode image: image: unknown format") = false ∧
    hasChunk (chars "photo-480p.webp")
      (chars "failed to resize image: decode image: image: unknown format") = false ∧
    hasChunk (chars "photo-720p.webp")
      (chars "failed to resize image: decode image: image: unknown format") = false ∧
    hasChunk (chars "photo-1080p.webp")
      (chars "failed to resize image: decode image: image: unknown format") = false := by
  refine ⟨by decide, by decide, by decide, by decide, by decide⟩

/-- Witness for C8: an `os.Open` failure's fatal log line does contain the
source path. -/
theorem c8_witness :
    hasChunk (chars "photo.jpg")
      (chars "failed to resize image: open file: open photo.jpg: no such file or directory") =
      true :=
  (c8_fail_fast Nat envOpenFail cfgA []).2.2.1 (chars "photo.jpg")
    (chars "no such file or directory") rfl
    (chars "failed to resize image: open file: open photo.jpg: no such file or directory")
    (by decide)

/-- How `List.set` changes the length of a filter: the element overwritten
leaves the count and the element written enters it. -/
theorem filter_length_set {β : Type} (p : β → Bool) :
    ∀ (l : List β) (i : Nat) (a old : β), l.get? i = some old →
      ((l.set i a).filter p).length + (if p old then 1 else 0) =
        (l.filter p).length + (if p a then 1 else 0) := by
  intro l
  induction l with
  | nil =>
    intro i a old h
    simp at h
  | cons x t ih =>
    intro i a old h
    cases i with
    | zero =>
      rw [List.get?_cons_zero, Option.some.injEq] at h
      subst h
      simp only [List.set]
      by_cases hx : p x <;> by_cases ha : p a <;>
        simp [List.filter_cons, hx, ha]
    | succ n =>
      rw [List.get?_cons_succ] at h
      simp only [List.set]
      have hrec := ih n a old h
      by_cases hx : p x <;> simp [List.filter_cons, hx] <;> omega

/-- An invariant preserved by every enabled step holds in every reachable
state. -/
theorem runSteps_inv {σ π : Type} (f : σ → π → Option σ) (I : σ → Prop)
    (hstep : ∀ s p s', I s → f s p = some s' → I s') :
    ∀ (steps : List π) (s s' : σ), I s → runSteps f s steps = some s' → I s' := by
  intro steps
  induction steps with
  | nil =>
    intro s s' hI h
    simp only [runSteps, Option.some.injEq] at h
    exact h ▸ hI
  | cons p ps ih =>
    intro s s' hI h
    simp only [runSteps] at h
    cases hf : f s p with
    | none =>
      rw [hf] at h
      exact absurd h (by simp)
    | some s1 =>
      rw [hf] at h
      exact ih s1 s' (hstep s p s1 hI hf) h

/-- Initially no task holds a semaphore unit. -/
theorem countRunning_replicate : ∀ n : Nat, countRunning (List.replicate n .pending) = 0 := by
  intro n
  induction n with
  | zero => rfl
  | succ k ih =>
    simp only [countRunning, List.replicate_succ, List.filter_cons, TStat.isRunning,
      Bool.false_eq_true, if_false]
    exact ih

/-- V2 semaphore invariant: available units plus running tasks is constant. -/
theorem applyV2_preserves (limit : Nat) :
    ∀ (s : StV2) (st : StepV2) (s' : StV2),
      s.sem + countRunning s.tasks = limit → applyV2 s st = some s' →
      s'.sem + countRunning s'.tasks = limit := by
  intro s st s' hI h
  cases st with
  | start i =>
    simp only [applyV2] at h
    split at h
    · next hcond =>
      obtain ⟨hget, hsem⟩ := hcond
      rw [Option.some.injEq] at h
      subst h
      have hc := filter_length_set TStat.isRunning s.tasks i .running .pending hget
      simp [TStat.isRunning] at hc
      simp only [countRunning] at hI ⊢
      omega
    · exact absurd h (by simp)
  | finish i =>
    simp only [applyV2] at h
    split at h
    · next hget =>
      rw [Option.some.injEq] at h
      subst h
      have hc := filter_length_set TStat.isRunning s.tasks i .done .running hget
      simp [TStat.isRunning] at hc
      simp only [countRunning] at hI ⊢
      omega
    · exact absurd h (by simp)

/-- V1 invariant: available units plus scanning files is constant, and the
worker pool keeps its size. -/
theorem applyV1_preserves (limit : Nat) :
    ∀ (s : StV1) (st : StepV1) (s' : StV1),
      s.sem + countRunning s.scan = limit ∧ s.workers.length = limit →
      applyV1 s st = some s' →
      s'.sem + countRunning s'.scan = limit ∧ s'.workers.length = limit := by
  intro s st s' hI h
  obtain ⟨hI1, hI2⟩ := hI
  cases st with
  | startScan i =>
    simp only [applyV1] at h
    split at h
    · next hcond =>
      obtain ⟨hget, hsem⟩ := hcond
      rw [Option.some.injEq] at h
      subst h
      have hc := filter_length_set TStat.isRunning s.scan i .running .pending hget
      simp [TStat.isRunning] at hc
      simp only [countRunning] at hI1 ⊢
      constructor
      · omega
      · exact hI2
    · exact absurd h (by simp)
  | emitJob i =>
    simp only [applyV1] at h
    split at h
    · rw [Option.some.injEq] at h
      subst h
      exact ⟨hI1, hI2⟩
    · exact absurd h (by simp)
  | endScan i =>
    simp only [applyV1] at h
    split at h
    · next hget =>
      rw [Option.some.injEq] at h
      subst h
      have hc := filter_length_set TStat.isRunning s.scan i .done .running hget
      simp [TStat.isRunning] at hc
      simp only [countRunning] at hI1 ⊢
      constructor
      · omega
      · exact hI2
    · exact absurd h (by simp)
  | take w =>
    simp only [applyV1] at h
    split at h
    · exact absurd h (by simp)
    · split at h
      · rw [Option.some.injEq] at h
        subst h
        exact ⟨hI1, by simpa [List.length_set] using hI2⟩
      · exact absurd h (by simp)
  | finish w =>
    simp only [applyV1] at h
    split at h
    · rw [Option.some.injEq] at h
      subst h
      exact ⟨hI1, by simpa [List.length_set] using hI2⟩
    · exact absurd h (by simp)

/-- C9 counterexample: in the pipelined version with `parallel = 2` and 10
source files there is a reachable state (after `overlapSteps`) in which 4
files are mid-processing at once — two being scanned and two inside the
workers — refuting the at-most-2 bound. -/
theorem c9_counterexample :
    (runSteps applyV1 (initV1 2 10) overlapSteps).map (fun s => decide (midFiles s 10 ≤ 2)) =
      some false ∧
    (runSteps applyV1 (initV1 2 10) overlapSteps).map (fun s => midFiles s 10) = some 4 := by
  constructor <;> decide

/-- C9 amended: in the per-file version (V2) at most `limit` source files are
mid-processing (hold the semaphore) in every reachable state; in the
pipelined version (V1) at most `limit` files are concurrently in the
scan/decode stage and at most `limit` jobs are concurrently in the workers,
but scanning and encoding of different files may overlap, so more than
`limit` files can be mid-processing at one moment. -/
theorem c9_amended :
    (∀ (limit nfiles : Nat) (steps : List StepV2) (s : StV2),
        runSteps applyV2 (initV2 limit nfiles) steps = some s →
        countRunning s.tasks ≤ limit) ∧
    (∀ (limit nfiles : Nat) (steps : List StepV1) (s : StV1),
        runSteps applyV1 (initV1 limit nfiles) steps = some s →
        countRunning s.scan ≤ limit ∧ countBusy s.workers ≤ limit) := by
  constructor
  · intro limit nfiles steps s h
    have hinv := runSteps_inv applyV2 (fun st => st.sem + countRunning st.tasks = limit)
      (fun a p b => applyV2_preserves limit a p b) steps (initV2 limit nfiles) s
      (by simp [initV2, countRunning_replicate]) h
    omega
  · intro limit nfiles steps s h
    have hinv := runSteps_inv applyV1
      (fun st => st.sem + countRunning st.scan = limit ∧ st.workers.length = limit)
      (fun a p b => applyV1_preserves limit a p b) steps (initV1 limit nfiles) s
      ⟨by simp [initV1, countRunning_replicate], by simp [initV1]⟩ h
    obtain ⟨h1, h2⟩ := hinv
    exact ⟨by omega, le_trans (List.length_filter_le _ _) (le_of_eq h2)⟩

/-- Witness for C9 at `limit = 2` after two `start` steps. -/
theorem c9_witness :
    countRunning [TStat.running, TStat.running, TStat.pending] ≤ 2 :=
  c9_amended.1 2 3 [StepV2.start 0, StepV2.start 1]
    ⟨0, [TStat.running, TStat.running, TStat.pending]⟩ (by decide)
